import Mathlib

/-!
Shallow embedding of the learning core of the DDPG agent in `agent.py`
(classes `DDPGAgent`, `OUNoise`, `ReplayBuffer`), over exact rationals.

Modelling conventions:
- a parameter tensor collection is flattened to a `List ℚ`;
- a state / action row is a `List ℚ`, a batch of rows a `List (List ℚ)`;
- the standard-normal draws of `np.random.randn()` are an explicit argument
  (`eps`), so every use of randomness is an adversarially chosen input;
- `random.sample(self.memory, k)` is modelled by an adversarially chosen list
  of positions into the buffer; the Python stdlib contract (uniform draw
  without replacement) makes those positions distinct and in range, which the
  theorems take as hypotheses;
- the external collaborators (feature extractor, `Actor`/`Critic` forward
  passes, optimizer steps) are abstract function arguments, since their code
  lives outside the core of this repository;
- in-place mutation of Python objects becomes explicit state passing.
-/

/-- Module-level constant `BATCH_SIZE = 514` of agent.py. -/
def BATCH_SIZE : Nat := 514

/-- Module-level constant `BUFFER_SIZE = int(1e5)` of agent.py. -/
def BUFFER_SIZE : Nat := 100000

/-- Module-level constant `GAMMA = 0.99` of agent.py. -/
def GAMMA : ℚ := 99 / 100

/-- Module-level constant `TAU = 0.15` of agent.py. -/
def TAU : ℚ := 15 / 100

/-- Elementwise clip of `np.clip(x, lo, hi)` for one scalar entry. -/
def np_clip (x lo hi : ℚ) : ℚ := min (max x lo) hi

/-- One experience tuple, `ReplayBuffer.experience = namedtuple("Experience",
["state", "action", "reward", "next_state", "done"])`.  The `done` flag is
stored as the numeric value used in the arithmetic of `DDPGAgent.learn`. -/
structure Transition where
  state : List ℚ
  action : List ℚ
  reward : ℚ
  next_state : List ℚ
  done : ℚ
deriving DecidableEq, Repr

/-- The `ReplayBuffer` object: `self.memory = deque(maxlen=buffer_size)`,
plus the `action_size` and `batch_size` attributes stored by `__init__`
(`device` is dropped: it only routes tensors to hardware). -/
structure ReplayBuffer where
  action_size : Nat
  buffer_size : Nat
  batch_size : Nat
  memory : List Transition
deriving DecidableEq, Repr

/-- The `ReplayBuffer.__init__` constructor: the deque starts empty. -/
def ReplayBuffer.init (action_size buffer_size batch_size : Nat) : ReplayBuffer :=
  { action_size := action_size, buffer_size := buffer_size,
    batch_size := batch_size, memory := [] }

/-- Embeds `ReplayBuffer.add`: `self.memory.append(e)` on a
`deque(maxlen=buffer_size)` appends on the right and, when the deque is full,
discards elements from the left so that at most `buffer_size` remain. -/
def ReplayBuffer.add (rb : ReplayBuffer) (t : Transition) : ReplayBuffer :=
  let m2 := rb.memory ++ [t]
  { rb with memory := m2.drop (m2.length - rb.buffer_size) }

/-- Folds `ReplayBuffer.add` over a sequence of transitions, in order. -/
def ReplayBuffer.addAll (rb : ReplayBuffer) (ts : List Transition) : ReplayBuffer :=
  ts.foldl ReplayBuffer.add rb

/-- Model of `random.sample(m, k)`: the stdlib draws `k` distinct positions of
`m` uniformly at random and returns the elements there; the drawn positions
are the explicit argument `idxs` (out-of-range positions yield nothing, but
the stdlib contract keeps every drawn position in range). -/
def randomSample (m : List Transition) (idxs : List Nat) : List Transition :=
  idxs.filterMap fun i => m[i]?

/-- Embeds `ReplayBuffer.sample`: draws `experiences = random.sample(self.memory,
k=self.batch_size)` (the drawn positions being `idxs`) and decomposes them into
the five row-aligned column lists `(states, actions, rewards, next_states,
dones)`; the `if e is not None` filters in the source are vacuous because
`add` only ever appends `namedtuple` values, never `None`. -/
def ReplayBuffer.sample (rb : ReplayBuffer) (idxs : List Nat) :
    List (List ℚ) × List (List ℚ) × List ℚ × List (List ℚ) × List ℚ :=
  let experiences := randomSample rb.memory idxs
  (experiences.map Transition.state, experiences.map Transition.action,
   experiences.map Transition.reward, experiences.map Transition.next_state,
   experiences.map Transition.done)

/-- The `OUNoise` object: attributes `size`, `mu = mu * np.ones(size)`,
`theta`, `sigma` and the evolving `state` vector. -/
structure OUNoise where
  size : Nat
  mu : List ℚ
  theta : ℚ
  sigma : ℚ
  state : List ℚ
deriving DecidableEq, Repr

/-- Embeds `OUNoise.reset`: `self.state = copy.copy(self.mu)`.  `copy.copy` of
a numpy array allocates a fresh array, so later writes to `state` never reach
`mu`; in this functional embedding that independence shows up as `sample`
leaving the `mu` field untouched. -/
def OUNoise.reset (n : OUNoise) : OUNoise := { n with state := n.mu }

/-- Embeds `OUNoise.__init__(size, mu=0., theta=0.15, sigma=0.2)`: stores the
parameters (with `self.mu = mu * np.ones(size)`) and calls `self.reset()`;
before that call the `state` attribute does not exist yet, rendered here as a
placeholder `[]` that `reset` immediately overwrites. -/
def OUNoise.init (size : Nat) (mu theta sigma : ℚ) : OUNoise :=
  OUNoise.reset { size := size, mu := List.replicate size mu, theta := theta,
                  sigma := sigma, state := [] }

/-- The noise process built by `DDPGAgent.__init__`: `OUNoise(action_size)`,
taking every optional parameter at its default (`mu=0., theta=0.15,
sigma=0.2`). -/
def DDPGAgent.noise_init (action_size : Nat) : OUNoise :=
  OUNoise.init action_size 0 (15 / 100) (2 / 10)

/-- Embeds `OUNoise.__sample__`: `dx = theta*(mu - x) + sigma*randn(len(x))`,
`self.state = x + dx`, returning the new state.  The vector of standard-normal
draws is the argument `eps`. -/
def OUNoise.sampleOnce (n : OUNoise) (eps : List ℚ) : OUNoise × List ℚ :=
  let x := n.state
  let dx := List.zipWith3 (fun m xi e => n.theta * (m - xi) + n.sigma * e) n.mu x eps
  let x2 := List.zipWith (fun a b => a + b) x dx
  ({ n with state := x2 }, x2)

/-- Sequential sampling along a list of normal draws: each step continues from
the state the previous step left behind (the loop body of
`OUNoise.sample_stack`). -/
def OUNoise.sampleSeq : OUNoise → List (List ℚ) → OUNoise × List (List ℚ)
  | n, [] => (n, [])
  | n, e :: es =>
    let p1 := n.sampleOnce e
    let p2 := OUNoise.sampleSeq p1.1 es
    (p2.1, p1.2 :: p2.2)

/-- The noise state after `k` consecutive `__sample__` calls fed by the draw
stream `eps` (reference definition for sequential advancement). -/
def OUNoise.afterSamples (n : OUNoise) (eps : Nat → List ℚ) : Nat → OUNoise
  | 0 => n
  | k + 1 => ((n.afterSamples eps k).sampleOnce (eps k)).1

/-- The noise state after folding one `__sample__` call per draw vector of
`es`, left to right (left-fold form used to relate `sampleSeq` to
`afterSamples`). -/
def OUNoise.afterSeq (n : OUNoise) (es : List (List ℚ)) : OUNoise :=
  es.foldl (fun m e => (m.sampleOnce e).1) n

/-- Embeds `OUNoise.sample_stack(num_perspectives)`: fills row `i` of the
result with `self.__sample__()` for `i in range(num_perspectives)`, each call
advancing the one shared `state`; row `i` consumes the draw vector `eps i`. -/
def OUNoise.sample_stack (n : OUNoise) (num_perspectives : Nat)
    (eps : Nat → List ℚ) : OUNoise × List (List ℚ) :=
  OUNoise.sampleSeq n ((List.range num_perspectives).map eps)

/-- Mode of a torch module: `train()` and `eval()` toggle between these. -/
inductive NetMode where
  | train : NetMode
  | evalMode : NetMode
deriving DecidableEq, Repr

/-- The four parameter sets owned by `DDPGAgent`, each flattened to one list
of scalars. -/
structure Networks where
  actor_local : List ℚ
  actor_target : List ℚ
  critic_local : List ℚ
  critic_target : List ℚ
deriving DecidableEq, Repr

/-- Embeds `DDPGAgent.soft_update(local_model, target_model, tau)`: for the
zipped parameter lists, `target_param.data.copy_(tau*local_param.data +
(1.0-tau)*target_param.data)` elementwise. -/
def DDPGAgent.soft_update (tau : ℚ) (local_params target_params : List ℚ) : List ℚ :=
  List.zipWith (fun t l => tau * l + (1 - tau) * t) target_params local_params

/-- Trace marker for the parameter-mutating statements of `DDPGAgent.learn`,
recorded in source order to make their sequence observable. -/
inductive UpdateEvent where
  | critic_opt_step : UpdateEvent
  | actor_opt_step : UpdateEvent
  | critic_soft_update : UpdateEvent
  | actor_soft_update : UpdateEvent
deriving DecidableEq, Repr

/-- Embeds the parameter evolution of `DDPGAgent.learn`: the critic optimizer
step (backprop through the clipped-gradient MSE loss, abstracted as
`criticStep`), then the actor optimizer step (abstracted as `actorStep`), then
`soft_update(critic_local, critic_target, TAU)`, then
`soft_update(actor_local, actor_target, TAU)` — in that statement order, which
the returned event trace records. -/
def DDPGAgent.learn (criticStep actorStep : Networks → List ℚ) (s0 : Networks) :
    Networks × List UpdateEvent :=
  let s1 := { s0 with critic_local := criticStep s0 }
  let s2 := { s1 with actor_local := actorStep s1 }
  let s3 := { s2 with critic_target := DDPGAgent.soft_update TAU s2.critic_local s2.critic_target }
  let s4 := { s3 with actor_target := DDPGAgent.soft_update TAU s3.actor_local s3.actor_target }
  (s4, [UpdateEvent.critic_opt_step, UpdateEvent.actor_opt_step,
        UpdateEvent.critic_soft_update, UpdateEvent.actor_soft_update])

/-- Embeds the TD-target computation of `DDPGAgent.learn` (lines
`actions_next = self.actor_target(next_states)`, `Q_targets_next =
self.critic_target(next_states, actions_next)`, `Q_targets = rewards + (gamma
* Q_targets_next * (1 - dones))`), with the target-network forward passes
abstracted as `actor_target_f` (state row to action row) and
`critic_target_f` (state row and action row to scalar value). -/
def DDPGAgent.learn_Q_targets (actor_target_f : List ℚ → List ℚ)
    (critic_target_f : List ℚ → List ℚ → ℚ) (gamma : ℚ)
    (rewards : List ℚ) (next_states : List (List ℚ)) (dones : List ℚ) : List ℚ :=
  let actions_next := next_states.map actor_target_f
  let q_targets_next := List.zipWith critic_target_f next_states actions_next
  List.zipWith3 (fun r q d => r + gamma * q * (1 - d)) rewards q_targets_next dones

/-- The agent state that `DDPGAgent.act` can read or write: the mode of the
`actor_local` module, the four parameter sets, and the shared noise process. -/
structure AgentState where
  actor_local_mode : NetMode
  nets : Networks
  noise : OUNoise
deriving DecidableEq, Repr

/-- Embeds `DDPGAgent.act(states, add_noise=True)`: extracts features, calls
`self.actor_local.eval()`, runs the forward pass under `torch.no_grad()`,
calls `self.actor_local.train()`, optionally adds
`self.noise.sample_stack(states.shape[0])` row by row, and returns
`np.clip(action, -1, 1)`.  `extract` abstracts
`self.feature_extractor.extract_states`; `forward` abstracts the
`actor_local` forward pass, reading the mode it runs under and the current
`actor_local` parameters; `eps` supplies the normal draws consumed by the
noise process. -/
def DDPGAgent.act (extract : List (List ℚ) → List (List ℚ))
    (forward : NetMode → List ℚ → List (List ℚ) → List (List ℚ))
    (eps : Nat → List ℚ) (s : AgentState) (states : List (List ℚ))
    (add_noise : Bool) : AgentState × List (List ℚ) :=
  let states1 := extract states
  let s1 := { s with actor_local_mode := NetMode.evalMode }
  let action := forward s1.actor_local_mode s1.nets.actor_local states1
  let s2 := { s1 with actor_local_mode := NetMode.train }
  let p :=
    if add_noise then
      let q := s2.noise.sample_stack states1.length eps
      ({ s2 with noise := q.1 },
       List.zipWith (List.zipWith (fun a b => a + b)) action q.2)
    else (s2, action)
  (p.1, p.2.map (List.map (fun x => np_clip x (-1) 1)))

/-- The slice of agent state that drives the learning cadence of
`DDPGAgent.step`: the `step_count` attribute, the replay memory, and an
instrumentation counter totalling how many times `self.learn` has been
invoked. -/
structure SchedState where
  step_count : Nat
  memory : ReplayBuffer
  learn_calls : Nat
deriving DecidableEq, Repr

/-- Embeds `DDPGAgent.step`: increments `self.step_count`, adds one transition
per row of the zipped input batch to `self.memory`, and then, if
`len(self.memory) > BATCH_SIZE` and `self.step_count % self.learn_every == 0`,
runs the loop `for i in range(self.iterations_per_learn): self.learn(...)`;
the instrumentation counter `learn_calls` grows by one per `learn` invocation
(the minibatch drawn by `self.memory.sample()` in each iteration is modelled
separately by `ReplayBuffer.sample`). -/
def DDPGAgent.step (learn_every iterations_per_learn : Nat)
    (rows : List Transition) (s : SchedState) : SchedState :=
  let c := s.step_count + 1
  let m := s.memory.addAll rows
  if BATCH_SIZE < m.memory.length ∧ c % learn_every = 0 then
    { step_count := c, memory := m, learn_calls := s.learn_calls + iterations_per_learn }
  else
    { step_count := c, memory := m, learn_calls := s.learn_calls }

/-- Iterates `DDPGAgent.step` over a stream of per-call row batches: the state
after `k` consecutive `step` calls, call number `j` ingesting `rows j`. -/
def DDPGAgent.stepIter (learn_every iterations_per_learn : Nat)
    (rows : Nat → List Transition) (s : SchedState) : Nat → SchedState
  | 0 => s
  | k + 1 => DDPGAgent.step learn_every iterations_per_learn (rows k)
      (DDPGAgent.stepIter learn_every iterations_per_learn rows s k)

/-- Python exception raised by evaluating a missing instance attribute. -/
inductive PyError where
  | attributeError : String → PyError
deriving DecidableEq, Repr

/-- Value of the instance attribute `save_file` on any `DDPGAgent`: no method
of the class (not `__init__`, not `save`, not `load`) ever assigns
`self.save_file`, so the attribute is absent on every instance. -/
def DDPGAgent.save_file_attr : Option String := none

/-- Embeds `DDPGAgent.load(fileprefix)`: the guard evaluates
`os.path.exists(self.save_file + "_actor_local.pth")`, so it first reads the
instance attribute `save_file` (raising `AttributeError` when absent); when
the guard passes it loads the four parameter sets from the files keyed by the
`fileprefix` argument, and otherwise it prints and returns with the current
parameter sets untouched.  `file_exists` abstracts `os.path.exists` and
`torch_load` abstracts `torch.load` plus `load_state_dict`. -/
def DDPGAgent.load (save_file : Option String) (file_exists : String → Bool)
    (torch_load : String → List ℚ) (fpfx : String) (nets : Networks) :
    Except PyError Networks :=
  match save_file with
  | none => Except.error (PyError.attributeError "save_file")
  | some sf =>
    if file_exists (sf ++ "_actor_local.pth") then
      Except.ok { actor_local := torch_load (fpfx ++ "_actor_local.pth"),
                  actor_target := torch_load (fpfx ++ "_actor_target.pth"),
                  critic_local := torch_load (fpfx ++ "_critic_local.pth"),
                  critic_target := torch_load (fpfx ++ "_critic_target.pth") }
    else
      Except.ok nets

/-- Test fixture: a transition tagged by its reward field. -/
def tagT (r : ℚ) : Transition :=
  { state := [], action := [], reward := r, next_state := [], done := 0 }

/-! Helper lemmas shared by the claim theorems. -/

theorem zipWith_getElem?_some {α β γ : Type} (f : α → β → γ) :
    ∀ (l1 : List α) (l2 : List β) (i : Nat) (a : α) (b : β),
      l1[i]? = some a → l2[i]? = some b → (List.zipWith f l1 l2)[i]? = some (f a b) := by
  intro l1
  induction l1 with
  | nil => intro l2 i a b h1 _; simp at h1
  | cons x l1 ih =>
    intro l2 i a b h1 h2
    cases l2 with
    | nil => simp at h2
    | cons y l2 =>
      cases i with
      | zero => simp at h1 h2; simp [h1, h2]
      | succ i => simp at h1 h2 ⊢; exact ih l2 i a b h1 h2

theorem zipWith3_getElem?_some {α β γ δ : Type} (f : α → β → γ → δ) :
    ∀ (l1 : List α) (l2 : List β) (l3 : List γ) (i : Nat) (a : α) (b : β) (c : γ),
      l1[i]? = some a → l2[i]? = some b → l3[i]? = some c →
      (List.zipWith3 f l1 l2 l3)[i]? = some (f a b c) := by
  intro l1
  induction l1 with
  | nil => intro l2 l3 i a b c h1 _ _; simp at h1
  | cons x l1 ih =>
    intro l2 l3 i a b c h1 h2 h3
    cases l2 with
    | nil => simp at h2
    | cons y l2 =>
      cases l3 with
      | nil => simp at h3
      | cons z l3 =>
        cases i with
        | zero => simp at h1 h2 h3; simp [List.zipWith3, h1, h2, h3]
        | succ i =>
          simp at h1 h2 h3
          simpa [List.zipWith3] using ih l2 l3 i a b c h1 h2 h3

theorem zipWith3_td_all_done (gamma : ℚ) :
    ∀ (rs qs ds : List ℚ), rs.length ≤ qs.length → rs.length ≤ ds.length →
      (∀ d ∈ ds, d = 1) →
      List.zipWith3 (fun r q d => r + gamma * q * (1 - d)) rs qs ds = rs := by
  intro rs
  induction rs with
  | nil => intro qs ds _ _ _; simp [List.zipWith3]
  | cons r rs ih =>
    intro qs ds hq hd hones
    cases qs with
    | nil => simp at hq
    | cons q qs =>
      cases ds with
      | nil => simp at hd
      | cons d ds =>
        have hd1 : d = 1 := hones d (List.mem_cons_self d ds)
        simp at hq hd
        simp [List.zipWith3, hd1]
        exact ih qs ds hq hd (fun x hx => hones x (List.mem_cons_of_mem d hx))

theorem soft_update_tau_one :
    ∀ (l t : List ℚ), l.length = t.length → DDPGAgent.soft_update 1 l t = l := by
  intro l
  induction l with
  | nil => intro t h; cases t with
    | nil => rfl
    | cons y t => simp at h
  | cons x l ih =>
    intro t h
    cases t with
    | nil => simp at h
    | cons y t =>
      simp at h
      simp [DDPGAgent.soft_update] at ih ⊢
      exact ih t h

theorem soft_update_tau_zero :
    ∀ (l t : List ℚ), l.length = t.length → DDPGAgent.soft_update 0 l t = t := by
  intro l
  induction l with
  | nil => intro t h; cases t with
    | nil => rfl
    | cons y t => simp at h
  | cons x l ih =>
    intro t h
    cases t with
    | nil => simp at h
    | cons y t =>
      simp at h
      simp [DDPGAgent.soft_update] at ih ⊢
      exact ih t h

/-- C1: in `DDPGAgent.learn`, the TD target of every minibatch row equals
`reward + GAMMA * critic_target(next_state, actor_target(next_state)) *
(1 - done)`, and on a minibatch whose rows all have `done = 1` the TD targets
are exactly the rewards, the bootstrap term being eliminated. -/
theorem C1_td_target (actor_target_f : List ℚ → List ℚ)
    (critic_target_f : List ℚ → List ℚ → ℚ) (gamma : ℚ)
    (rewards : List ℚ) (next_states : List (List ℚ)) (dones : List ℚ)
    (hlr : rewards.length = next_states.length)
    (hld : dones.length = next_states.length) :
    (∀ (i : Nat) (r : ℚ) (ns : List ℚ) (d : ℚ),
      rewards[i]? = some r → next_states[i]? = some ns → dones[i]? = some d →
      (DDPGAgent.learn_Q_targets actor_target_f critic_target_f gamma rewards next_states dones)[i]? =
        some (r + gamma * critic_target_f ns (actor_target_f ns) * (1 - d))) ∧
    ((∀ d ∈ dones, d = 1) →
      DDPGAgent.learn_Q_targets actor_target_f critic_target_f gamma rewards next_states dones =
        rewards) := by
  constructor
  · intro i r ns d hr hns hd
    have hq : (List.zipWith critic_target_f next_states (next_states.map actor_target_f))[i]? =
        some (critic_target_f ns (actor_target_f ns)) := by
      apply zipWith_getElem?_some critic_target_f next_states (next_states.map actor_target_f) i
      · exact hns
      · rw [List.getElem?_map, hns]; rfl
    exact zipWith3_getElem?_some _ rewards _ dones i r _ d hr hq hd
  · intro hones
    apply zipWith3_td_all_done
    · rw [hlr, List.length_zipWith, List.length_map]
      exact Nat.le_of_eq (Nat.min_self _).symm
    · rw [hlr, ← hld]
    · exact hones

/-- Witness for C1 at a concrete two-row minibatch with both rows terminal. -/
theorem C1_td_target_witness :
    ([(2:ℚ), 3]).length = ([[(0:ℚ)], [1]] : List (List ℚ)).length ∧
    ([(1:ℚ), 1]).length = ([[(0:ℚ)], [1]] : List (List ℚ)).length ∧
    (∀ d ∈ [(1:ℚ), 1], d = 1) ∧
    DDPGAgent.learn_Q_targets (fun s => s) (fun _ _ => 1) (1/2) [2, 3] [[0], [1]] [1, 1] =
      [(2:ℚ), 3] :=
  ⟨rfl, rfl, by decide,
    (C1_td_target (fun s => s) (fun _ _ => 1) (1/2) [2, 3] [[0], [1]] [1, 1] rfl rfl).2
      (by decide)⟩

/-- C2: `DDPGAgent.learn` ends every call with target smoothing, critic pair
first then policy pair, setting each target parameter to
`tau * local + (1 - tau) * target` elementwise with the fixed constant `TAU`;
with `tau = 1` the target parameters become exactly the local parameters, and
with `tau = 0` they are left unchanged. -/
theorem C2_target_smoothing :
    (∀ (criticStep actorStep : Networks → List ℚ) (s0 : Networks),
      (DDPGAgent.learn criticStep actorStep s0).1.critic_target =
        DDPGAgent.soft_update TAU (criticStep s0) s0.critic_target ∧
      (DDPGAgent.learn criticStep actorStep s0).1.actor_target =
        DDPGAgent.soft_update TAU (actorStep { s0 with critic_local := criticStep s0 })
          s0.actor_target ∧
      (DDPGAgent.learn criticStep actorStep s0).2 =
        [UpdateEvent.critic_opt_step, UpdateEvent.actor_opt_step,
         UpdateEvent.critic_soft_update, UpdateEvent.actor_soft_update]) ∧
    (∀ (tau : ℚ) (l t : List ℚ) (i : Nat) (li ti : ℚ),
      l[i]? = some li → t[i]? = some ti →
      (DDPGAgent.soft_update tau l t)[i]? = some (tau * li + (1 - tau) * ti)) ∧
    (∀ (l t : List ℚ), l.length = t.length → DDPGAgent.soft_update 1 l t = l) ∧
    (∀ (l t : List ℚ), l.length = t.length → DDPGAgent.soft_update 0 l t = t) := by
  refine ⟨fun criticStep actorStep s0 => ⟨rfl, rfl, rfl⟩, ?_, soft_update_tau_one, soft_update_tau_zero⟩
  intro tau l t i li ti hl ht
  exact zipWith_getElem?_some _ t l i ti li ht hl

/-- Witness for C2 on one-element parameter lists. -/
theorem C2_target_smoothing_witness :
    ([(5:ℚ)]).length = ([(7:ℚ)]).length ∧
    DDPGAgent.soft_update 1 [(5:ℚ)] [(7:ℚ)] = [(5:ℚ)] ∧
    DDPGAgent.soft_update 0 [(5:ℚ)] [(7:ℚ)] = [(7:ℚ)] ∧
    ([(5:ℚ)])[0]? = some (5:ℚ) ∧ ([(7:ℚ)])[0]? = some (7:ℚ) ∧
    (DDPGAgent.soft_update (1/2) [(5:ℚ)] [(7:ℚ)])[0]? =
      some ((1/2) * (5:ℚ) + (1 - 1/2) * 7) :=
  ⟨rfl, C2_target_smoothing.2.2.1 [5] [7] rfl, C2_target_smoothing.2.2.2 [5] [7] rfl,
    rfl, rfl, C2_target_smoothing.2.1 (1/2) [5] [7] 0 5 7 rfl rfl⟩

/-- C5: `DDPGAgent.load` is NOT tolerant to missing checkpoint artifacts: on
every agent the guard reads the instance attribute `save_file`, which no
method ever assigns, so every call raises `AttributeError("save_file")`
(regardless of the filesystem, the prefix argument, or the current parameter
sets) instead of logging and leaving the parameters untouched. -/
theorem C5_load_raises_attribute_error (file_exists : String → Bool)
    (torch_load : String → List ℚ) (fpfx : String) (nets : Networks) :
    DDPGAgent.load DDPGAgent.save_file_attr file_exists torch_load fpfx nets =
      Except.error (PyError.attributeError "save_file") := rfl

/-- Helper: the action batch returned by `DDPGAgent.act` is the clipped
version of the raw (or noise-augmented) forward-pass output, the forward pass
running under evaluation mode. -/
theorem act_snd_eq (extract : List (List ℚ) → List (List ℚ))
    (forward : NetMode → List ℚ → List (List ℚ) → List (List ℚ))
    (eps : Nat → List ℚ) (s : AgentState) (states : List (List ℚ))
    (add_noise : Bool) :
    (DDPGAgent.act extract forward eps s states add_noise).2 =
      (if add_noise then
        List.zipWith (List.zipWith (fun a b => a + b))
          (forward NetMode.evalMode s.nets.actor_local (extract states))
          (s.noise.sample_stack (extract states).length eps).2
      else
        forward NetMode.evalMode s.nets.actor_local (extract states)).map
        (List.map (fun x => np_clip x (-1) 1)) := by
  cases add_noise <;> rfl

/-- C8: every element of every action row returned by `DDPGAgent.act` lies in
`[-1, 1]`, for every feature extractor, every raw policy-network output, every
noise draw, every agent state, every input batch and both values of
`add_noise`. -/
theorem C8_act_output_clipped (extract : List (List ℚ) → List (List ℚ))
    (forward : NetMode → List ℚ → List (List ℚ) → List (List ℚ))
    (eps : Nat → List ℚ) (s : AgentState) (states : List (List ℚ))
    (add_noise : Bool) :
    ∀ row ∈ (DDPGAgent.act extract forward eps s states add_noise).2,
      ∀ x ∈ row, -1 ≤ x ∧ x ≤ 1 := by
  intro row hrow x hx
  rw [act_snd_eq] at hrow
  simp only [List.mem_map] at hrow
  obtain ⟨r0, _, rfl⟩ := hrow
  simp only [List.mem_map] at hx
  obtain ⟨y, _, rfl⟩ := hx
  exact ⟨le_min (le_max_right _ _) (by norm_num), min_le_right _ _⟩

/-- Witness for C8: a raw network output of 5 is returned as 1 and lies in
`[-1, 1]`. -/
theorem C8_act_output_clipped_witness :
    [(1:ℚ)] ∈ (DDPGAgent.act (fun b => b) (fun _ _ _ => [[(5:ℚ)]]) (fun _ => [])
      ⟨NetMode.train, ⟨[], [], [], []⟩, DDPGAgent.noise_init 0⟩ [[(0:ℚ)]] false).2 ∧
    (1:ℚ) ∈ [(1:ℚ)] ∧ (-1 ≤ (1:ℚ) ∧ (1:ℚ) ≤ 1) :=
  ⟨by decide, by decide,
    C8_act_output_clipped (fun b => b) (fun _ _ _ => [[(5:ℚ)]]) (fun _ => [])
      ⟨NetMode.train, ⟨[], [], [], []⟩, DDPGAgent.noise_init 0⟩ [[(0:ℚ)]] false
      [(1:ℚ)] (by decide) (1:ℚ) (by decide)⟩

/-- C10: `DDPGAgent.act` always returns with the policy-local network in
training mode, whatever mode it started in and whatever `add_noise` is; the
forward pass itself runs under evaluation mode; and none of the four
parameter sets is modified. -/
theorem C10_act_mode_and_frame (extract : List (List ℚ) → List (List ℚ))
    (forward : NetMode → List ℚ → List (List ℚ) → List (List ℚ))
    (eps : Nat → List ℚ) (s : AgentState) (states : List (List ℚ))
    (add_noise : Bool) :
    (DDPGAgent.act extract forward eps s states add_noise).1.actor_local_mode =
      NetMode.train ∧
    (DDPGAgent.act extract forward eps s states add_noise).1.nets = s.nets ∧
    (DDPGAgent.act extract forward eps s states add_noise).2 =
      (if add_noise then
        List.zipWith (List.zipWith (fun a b => a + b))
          (forward NetMode.evalMode s.nets.actor_local (extract states))
          (s.noise.sample_stack (extract states).length eps).2
      else
        forward NetMode.evalMode s.nets.actor_local (extract states)).map
        (List.map (fun x => np_clip x (-1) 1)) := by
  refine ⟨?_, ?_, act_snd_eq extract forward eps s states add_noise⟩ <;>
    cases add_noise <;> rfl

/-- Helper for C7: a sample step from the zero vector produces exactly
`sigma * eps` elementwise. -/
theorem sample_from_zero_state (theta sigma : ℚ) :
    ∀ eps : List ℚ,
      List.zipWith (fun a b => a + b) (List.replicate eps.length 0)
        (List.zipWith3 (fun m xi e => theta * (m - xi) + sigma * e)
          (List.replicate eps.length 0) (List.replicate eps.length 0) eps) =
      eps.map (fun e => sigma * e) := by
  intro eps
  induction eps with
  | nil => rfl
  | cons e eps ih =>
    simp only [List.length_cons, List.replicate_succ, List.zipWith3, List.zipWith_cons_cons,
      List.map_cons]
    rw [ih]
    congr 1
    ring

/-- C7: on the Noise Process, `reset` sets the state to an independent copy of
`mu` (later sampling mutates `state` but never `mu`), repeated `reset` calls
with no intervening sample are idempotent, and — for the process as the agent
constructs it, whose `mu` is the zero vector — one `sample` immediately after
`reset` returns exactly `sigma * eps`, the mean-reversion term having
vanished because the state equals `mu` at that instant. -/
theorem C7_noise_reset_sample (n : OUNoise) (size : Nat) (eps : List ℚ)
    (hmu : n.mu = List.replicate size 0) (heps : eps.length = size) :
    (n.reset.state = n.mu ∧ n.reset.mu = n.mu) ∧
    (∀ e : List ℚ, ((n.sampleOnce e).1).mu = n.mu) ∧
    (n.reset.reset = n.reset) ∧
    ((DDPGAgent.noise_init size).mu = List.replicate size 0) ∧
    ((n.reset.sampleOnce eps).2 = eps.map (fun e => n.sigma * e)) := by
  refine ⟨⟨rfl, rfl⟩, fun e => rfl, rfl, by simp [DDPGAgent.noise_init, OUNoise.init, OUNoise.reset], ?_⟩
  show List.zipWith (fun a b => a + b) n.reset.state
      (List.zipWith3 (fun m xi e => n.reset.theta * (m - xi) + n.reset.sigma * e)
        n.reset.mu n.reset.state eps) = eps.map (fun e => n.sigma * e)
  have hst : n.reset.state = List.replicate eps.length 0 := by
    simp [OUNoise.reset, hmu, heps]
  have hmu2 : n.reset.mu = List.replicate eps.length 0 := by
    simp [OUNoise.reset, hmu, heps]
  rw [hst, hmu2]
  exact sample_from_zero_state n.theta n.sigma eps

/-- Witness for C7 at the noise process of the agent, dimension 2, with draws
`[1, 2]`. -/
theorem C7_noise_reset_sample_witness :
    (DDPGAgent.noise_init 2).mu = List.replicate 2 0 ∧
    ([(1:ℚ), 2]).length = 2 ∧
    ((DDPGAgent.noise_init 2).reset.sampleOnce [(1:ℚ), 2]).2 =
      [(1:ℚ), 2].map (fun e => (DDPGAgent.noise_init 2).sigma * e) :=
  ⟨by decide, rfl,
    (C7_noise_reset_sample (DDPGAgent.noise_init 2) 2 [(1:ℚ), 2] (by decide) rfl).2.2.2.2⟩

/-- Helper for C9: the first component of `sampleSeq` is the left fold of
single sample steps. -/
theorem sampleSeq_fst (es : List (List ℚ)) :
    ∀ n : OUNoise, (OUNoise.sampleSeq n es).1 = n.afterSeq es := by
  induction es with
  | nil => intro n; rfl
  | cons e es ih =>
    intro n
    show (OUNoise.sampleSeq (n.sampleOnce e).1 es).1 = _
    rw [ih]
    rfl

/-- Helper for C9: `sampleSeq` returns one row per draw vector. -/
theorem sampleSeq_length (es : List (List ℚ)) :
    ∀ n : OUNoise, (OUNoise.sampleSeq n es).2.length = es.length := by
  induction es with
  | nil => intro n; rfl
  | cons e es ih =>
    intro n
    show ((n.sampleOnce e).2 :: (OUNoise.sampleSeq (n.sampleOnce e).1 es).2).length = _
    simp [ih]

/-- Helper for C9: row `k` of `sampleSeq` is the state reached after the
first `k + 1` sequential sample steps. -/
theorem sampleSeq_getElem (es : List (List ℚ)) :
    ∀ (n : OUNoise) (k : Nat), k < es.length →
      (OUNoise.sampleSeq n es).2[k]? =
        some ((n.afterSeq (es.take (k + 1))).state) := by
  induction es with
  | nil => intro n k hk; simp at hk
  | cons e es ih =>
    intro n k hk
    cases k with
    | zero =>
      show ((n.sampleOnce e).2 :: (OUNoise.sampleSeq (n.sampleOnce e).1 es).2)[0]? = _
      rw [List.getElem?_cons_zero]
      rfl
    | succ k =>
      show ((n.sampleOnce e).2 :: (OUNoise.sampleSeq (n.sampleOnce e).1 es).2)[k + 1]? = _
      rw [List.getElem?_cons_succ]
      exact ih (n.sampleOnce e).1 k (by simpa using hk)

/-- Helper for C9: folding over the draw vectors `eps 0, …, eps (N-1)` agrees
with the recursive `afterSamples`. -/
theorem afterSeq_range_map (eps : Nat → List ℚ) :
    ∀ (N : Nat) (n : OUNoise),
      n.afterSeq ((List.range N).map eps) = n.afterSamples eps N := by
  intro N
  induction N with
  | zero => intro n; rfl
  | succ N ih =>
    intro n
    show ((List.range (N + 1)).map eps).foldl (fun m e => (m.sampleOnce e).1) n = _
    rw [List.range_succ, List.map_append, List.foldl_append]
    show ((n.afterSeq ((List.range N).map eps)).sampleOnce (eps N)).1 = _
    rw [ih]
    rfl

/-- C9: `sample_stack(n)` performs exactly `n` sequential `__sample__` calls
on the one shared process state (never `n` independent restarted processes):
it leaves the process in the state reached after `n` sequential steps, returns
`n` rows, and row `k` is the state reached after the first `k + 1` sequential
steps; correspondingly, `DDPGAgent.act` with noise on a batch of `N` rows
advances the shared noise state exactly `N` times, one step per row. -/
theorem C9_sample_stack_sequential (n : OUNoise) (N : Nat) (eps : Nat → List ℚ) :
    ((n.sample_stack N eps).1 = n.afterSamples eps N) ∧
    ((n.sample_stack N eps).2.length = N) ∧
    (∀ k : Nat, k < N → (n.sample_stack N eps).2[k]? =
      some ((n.afterSamples eps (k + 1)).state)) ∧
    (∀ (extract : List (List ℚ) → List (List ℚ))
      (forward : NetMode → List ℚ → List (List ℚ) → List (List ℚ))
      (s : AgentState) (states : List (List ℚ)),
      (DDPGAgent.act extract forward eps s states true).1.noise =
        s.noise.afterSamples eps (extract states).length) := by
  have hfst : ∀ (m : OUNoise) (M : Nat),
      (m.sample_stack M eps).1 = m.afterSamples eps M := by
    intro m M
    rw [OUNoise.sample_stack, sampleSeq_fst, afterSeq_range_map]
  refine ⟨hfst n N, ?_, ?_, ?_⟩
  · rw [OUNoise.sample_stack, sampleSeq_length]
    simp
  · intro k hk
    rw [OUNoise.sample_stack, sampleSeq_getElem _ _ _ (by simpa using hk)]
    have htake : ((List.range N).map eps).take (k + 1) = (List.range (k + 1)).map eps := by
      rw [← List.map_take, List.take_range, Nat.min_eq_left (by omega)]
    rw [htake, afterSeq_range_map]
  · intro extract forward s states
    show (s.noise.sample_stack (extract states).length eps).1 = _
    exact hfst s.noise (extract states).length

/-- Witness for C9 on a dimension-1 noise process, two rows. -/
theorem C9_sample_stack_sequential_witness :
    (1:Nat) < 2 ∧
    ((DDPGAgent.noise_init 1).sample_stack 2 (fun i => [(i:ℚ) + 1])).2[1]? =
      some (((DDPGAgent.noise_init 1).afterSamples (fun i => [(i:ℚ) + 1]) 2).state) :=
  ⟨by decide,
    (C9_sample_stack_sequential (DDPGAgent.noise_init 1) 2 (fun i => [(i:ℚ) + 1])).2.2.1
      1 (by decide)⟩

/-- Helper for C4: the replay memory after any sequence of `add` calls is the
original contents followed by the added elements, with the overflow dropped
from the front. -/
theorem addAll_memory_eq (es : List Transition) :
    ∀ rb : ReplayBuffer, rb.memory.length ≤ rb.buffer_size →
      (rb.addAll es).memory =
        (rb.memory ++ es).drop (rb.memory.length + es.length - rb.buffer_size) := by
  induction es with
  | nil =>
    intro rb h
    have h0 : rb.memory.length + ([] : List Transition).length - rb.buffer_size = 0 := by
      simp only [List.length_nil, Nat.add_zero]
      omega
    show rb.memory = _
    rw [List.append_nil, h0, List.drop_zero]
  | cons e es ih =>
    intro rb h
    have hmem : (rb.add e).memory =
        (rb.memory ++ [e]).drop (rb.memory.length + 1 - rb.buffer_size) := by
      show (rb.memory ++ [e]).drop ((rb.memory ++ [e]).length - rb.buffer_size) = _
      rw [List.length_append, List.length_singleton]
    have hbs : (rb.add e).buffer_size = rb.buffer_size := rfl
    have hlen : (rb.add e).memory.length =
        rb.memory.length + 1 - (rb.memory.length + 1 - rb.buffer_size) := by
      rw [hmem, List.length_drop, List.length_append, List.length_singleton]
    have hle : (rb.add e).memory.length ≤ (rb.add e).buffer_size := by
      rw [hbs, hlen]; omega
    show (ReplayBuffer.addAll (rb.add e) es).memory = _
    rw [ih (rb.add e) hle, hmem, hbs, List.length_drop, List.length_append,
      List.length_singleton]
    rw [← List.drop_append_of_le_length
      (by rw [List.length_append, List.length_singleton]; omega)]
    rw [List.drop_drop]
    have hl : rb.memory ++ [e] ++ es = rb.memory ++ e :: es := by
      rw [List.append_assoc, List.singleton_append]
    have hidx : rb.memory.length + 1 - rb.buffer_size +
          (rb.memory.length + 1 - (rb.memory.length + 1 - rb.buffer_size) + es.length -
            rb.buffer_size) =
        rb.memory.length + (e :: es).length - rb.buffer_size := by
      simp only [List.length_cons]
      omega
    rw [hl, hidx]

/-- Helper for C4 and C6: everything `randomSample` returns is an element of
the buffer contents. -/
theorem randomSample_subset (m : List Transition) (idxs : List Nat) :
    ∀ t ∈ randomSample m idxs, t ∈ m := by
  intro t ht
  simp only [randomSample, List.mem_filterMap] at ht
  obtain ⟨i, _, hi⟩ := ht
  exact List.getElem?_mem hi

/-- C4: starting from an empty store of capacity `C`, any sequence of `add`
calls leaves exactly the last `C` added transitions (strict FIFO eviction),
so the size is always `min total_adds C`; concretely, with capacity 5 and
inserts `e0..e6` the contents are exactly `[e2, e3, e4, e5, e6]`, and any
`sample` from that store returns only transitions with reward at least 2,
never `e0` or `e1`. -/
theorem C4_fifo_eviction :
    (∀ (a C b : Nat) (es : List Transition),
      ((ReplayBuffer.init a C b).addAll es).memory = es.drop (es.length - C)) ∧
    (∀ (a C b : Nat) (es : List Transition),
      ((ReplayBuffer.init a C b).addAll es).memory.length = min es.length C) ∧
    (((ReplayBuffer.init 1 5 2).addAll
        [tagT 0, tagT 1, tagT 2, tagT 3, tagT 4, tagT 5, tagT 6]).memory =
      [tagT 2, tagT 3, tagT 4, tagT 5, tagT 6]) ∧
    (∀ (idxs : List Nat) (t : Transition),
      t ∈ randomSample ((ReplayBuffer.init 1 5 2).addAll
        [tagT 0, tagT 1, tagT 2, tagT 3, tagT 4, tagT 5, tagT 6]).memory idxs →
      2 ≤ t.reward) := by
  have hbase : ∀ (a C b : Nat) (es : List Transition),
      ((ReplayBuffer.init a C b).addAll es).memory = es.drop (es.length - C) := by
    intro a C b es
    have := addAll_memory_eq es (ReplayBuffer.init a C b) (by simp [ReplayBuffer.init])
    simpa [ReplayBuffer.init] using this
  refine ⟨hbase, ?_, ?_, ?_⟩
  · intro a C b es
    rw [hbase, List.length_drop]
    omega
  · rw [hbase]
    decide
  · intro idxs t ht
    have hmem := randomSample_subset _ idxs t ht
    rw [hbase] at hmem
    have : t = tagT 2 ∨ t = tagT 3 ∨ t = tagT 4 ∨ t = tagT 5 ∨ t = tagT 6 := by
      simpa using hmem
    rcases this with h | h | h | h | h <;> rw [h] <;> norm_num [tagT]

/-- Witness for C4: sampling position 0 of the post-eviction store returns
`e2`, whose reward is at least 2. -/
theorem C4_fifo_eviction_witness :
    tagT 2 ∈ randomSample ((ReplayBuffer.init 1 5 2).addAll
      [tagT 0, tagT 1, tagT 2, tagT 3, tagT 4, tagT 5, tagT 6]).memory [0] ∧
    2 ≤ (tagT 2).reward :=
  ⟨by decide, C4_fifo_eviction.2.2.2 [0] (tagT 2) (by decide)⟩

/-- Helper for C6: when every drawn position is in range, `randomSample`
returns one transition per position. -/
theorem randomSample_length (m : List Transition) :
    ∀ idxs : List Nat, (∀ i ∈ idxs, i < m.length) →
      (randomSample m idxs).length = idxs.length := by
  intro idxs
  induction idxs with
  | nil => intro _; rfl
  | cons a idxs ih =>
    intro h
    have ha : a < m.length := h a (List.mem_cons_self a idxs)
    have hfa : m[a]? = some (m.get ⟨a, ha⟩) := by
      rw [List.getElem?_eq_getElem ha]
      rfl
    simp only [randomSample, List.filterMap_cons, hfa, List.length_cons]
    have := ih (fun i hi => h i (List.mem_cons_of_mem a hi))
    simpa [randomSample] using this

/-- Helper for C6: when every drawn position is in range, row `j` of
`randomSample` is the buffer entry at position `idxs[j]`. -/
theorem randomSample_getElem (m : List Transition) :
    ∀ idxs : List Nat, (∀ i ∈ idxs, i < m.length) →
      ∀ (j i : Nat), idxs[j]? = some i →
        (randomSample m idxs)[j]? = m[i]? := by
  intro idxs
  induction idxs with
  | nil => intro _ j i hj; simp at hj
  | cons a idxs ih =>
    intro h j i hj
    have ha : a < m.length := h a (List.mem_cons_self a idxs)
    have hfa : m[a]? = some (m.get ⟨a, ha⟩) := by
      rw [List.getElem?_eq_getElem ha]
      rfl
    cases j with
    | zero =>
      rw [List.getElem?_cons_zero] at hj
      cases hj
      simp only [randomSample, List.filterMap_cons, hfa, List.getElem?_cons_zero]
    | succ j =>
      rw [List.getElem?_cons_succ] at hj
      simp only [randomSample, List.filterMap_cons, hfa, List.getElem?_cons_succ]
      exact ih (fun x hx => h x (List.mem_cons_of_mem a hx)) j i hj

/-- C6: when the drawn positions are distinct (sampling without replacement),
in range, and `batch_size` many, `ReplayBuffer.sample` returns exactly
`batch_size` rows in each of the five column lists; row `j` of all five lists
comes from the single buffer entry at drawn position `idxs[j]`; distinct rows
come from distinct store entries; and every returned transition is a store
element. -/
theorem C6_sample_row_aligned (rb : ReplayBuffer) (idxs : List Nat)
    (hk : idxs.length = rb.batch_size) (hnd : idxs.Nodup)
    (hin : ∀ i ∈ idxs, i < rb.memory.length) :
    ((rb.sample idxs).1.length = rb.batch_size ∧
     (rb.sample idxs).2.1.length = rb.batch_size ∧
     (rb.sample idxs).2.2.1.length = rb.batch_size ∧
     (rb.sample idxs).2.2.2.1.length = rb.batch_size ∧
     (rb.sample idxs).2.2.2.2.length = rb.batch_size) ∧
    (∀ j i : Nat, idxs[j]? = some i →
      ∃ t : Transition, rb.memory[i]? = some t ∧
        (rb.sample idxs).1[j]? = some t.state ∧
        (rb.sample idxs).2.1[j]? = some t.action ∧
        (rb.sample idxs).2.2.1[j]? = some t.reward ∧
        (rb.sample idxs).2.2.2.1[j]? = some t.next_state ∧
        (rb.sample idxs).2.2.2.2[j]? = some t.done) ∧
    (∀ j j' i i' : Nat, idxs[j]? = some i → idxs[j']? = some i' →
      j ≠ j' → i ≠ i') ∧
    (∀ t ∈ randomSample rb.memory idxs, t ∈ rb.memory) := by
  have hlen : (randomSample rb.memory idxs).length = rb.batch_size := by
    rw [randomSample_length rb.memory idxs hin, hk]
  refine ⟨⟨?_, ?_, ?_, ?_, ?_⟩, ?_, ?_, randomSample_subset rb.memory idxs⟩
  · show ((randomSample rb.memory idxs).map Transition.state).length = _
    rw [List.length_map, hlen]
  · show ((randomSample rb.memory idxs).map Transition.action).length = _
    rw [List.length_map, hlen]
  · show ((randomSample rb.memory idxs).map Transition.reward).length = _
    rw [List.length_map, hlen]
  · show ((randomSample rb.memory idxs).map Transition.next_state).length = _
    rw [List.length_map, hlen]
  · show ((randomSample rb.memory idxs).map Transition.done).length = _
    rw [List.length_map, hlen]
  · intro j i hj
    have hi : i < rb.memory.length := hin i (List.getElem?_mem hj)
    refine ⟨rb.memory.get ⟨i, hi⟩, ?_, ?_, ?_, ?_, ?_, ?_⟩
    · rw [List.getElem?_eq_getElem hi]; rfl
    all_goals {
      show ((randomSample rb.memory idxs).map _)[j]? = _
      rw [List.getElem?_map, randomSample_getElem rb.memory idxs hin j i hj,
        List.getElem?_eq_getElem hi]
      rfl
    }
  · intro j j' i i' hj hj' hne heq
    apply hne
    have hjlt : j < idxs.length := by
      by_contra hge
      rw [List.getElem?_eq_none (by omega)] at hj
      cases hj
    subst heq
    exact List.getElem?_inj hjlt hnd (hj.trans hj'.symm)

/-- Witness for C6 on a three-element store with drawn positions `[2, 0]`. -/
theorem C6_sample_row_aligned_witness :
    ([2, 0] : List Nat).length = (ReplayBuffer.mk 1 5 2 [tagT 10, tagT 11, tagT 12]).batch_size ∧
    ([2, 0] : List Nat).Nodup ∧
    (∀ i ∈ ([2, 0] : List Nat),
      i < (ReplayBuffer.mk 1 5 2 [tagT 10, tagT 11, tagT 12]).memory.length) ∧
    ((ReplayBuffer.mk 1 5 2 [tagT 10, tagT 11, tagT 12]).sample [2, 0]).1.length =
      (ReplayBuffer.mk 1 5 2 [tagT 10, tagT 11, tagT 12]).batch_size :=
  ⟨rfl, by decide, by decide,
    (C6_sample_row_aligned (ReplayBuffer.mk 1 5 2 [tagT 10, tagT 11, tagT 12]) [2, 0]
      rfl (by decide) (by decide)).1.1⟩

/-- Helper for C3: one `add` keeps the occupancy above `BATCH_SIZE` and below
capacity once it is there. -/
theorem add_preserves_bounds (rb : ReplayBuffer) (t : Transition)
    (h1 : BATCH_SIZE < rb.memory.length) (h2 : rb.memory.length ≤ rb.buffer_size)
    (h3 : BATCH_SIZE < rb.buffer_size) :
    BATCH_SIZE < (rb.add t).memory.length ∧ (rb.add t).memory.length ≤ rb.buffer_size := by
  have hlen : (rb.add t).memory.length =
      rb.memory.length + 1 - (rb.memory.length + 1 - rb.buffer_size) := by
    show ((rb.memory ++ [t]).drop ((rb.memory ++ [t]).length - rb.buffer_size)).length = _
    rw [List.length_drop, List.length_append, List.length_singleton]
  rw [hlen]
  omega

/-- Helper for C3: any sequence of adds keeps the occupancy above
`BATCH_SIZE`, below capacity, and leaves the capacity itself unchanged. -/
theorem addAll_preserves_bounds (es : List Transition) :
    ∀ rb : ReplayBuffer,
      BATCH_SIZE < rb.memory.length → rb.memory.length ≤ rb.buffer_size →
      BATCH_SIZE < rb.buffer_size →
      BATCH_SIZE < (rb.addAll es).memory.length ∧
      (rb.addAll es).memory.length ≤ (rb.addAll es).buffer_size ∧
      (rb.addAll es).buffer_size = rb.buffer_size := by
  induction es with
  | nil => intro rb h1 h2 _; exact ⟨h1, h2, rfl⟩
  | cons e es ih =>
    intro rb h1 h2 h3
    have hb := add_preserves_bounds rb e h1 h2 h3
    have hbs : (rb.add e).buffer_size = rb.buffer_size := rfl
    have hrec := ih (rb.add e) hb.1 (by rw [hbs]; exact hb.2) (by rw [hbs]; exact h3)
    refine ⟨hrec.1, hrec.2.1, ?_⟩
    show ((rb.add e).addAll es).buffer_size = rb.buffer_size
    rw [hrec.2.2, hbs]

/-- C3: each ingest call (`DDPGAgent.step`) increments the step counter by
exactly 1 and adds one transition per input row to the replay store, and the
learning loop fires (for `iterations_per_learn` iterations) exactly when the
post-add store size strictly exceeds `BATCH_SIZE` and the incremented counter
is a multiple of `learn_every`; in the scenario `learn_every = 10`,
`iterations_per_learn = 10`, counter on a cadence boundary and store already
above `BATCH_SIZE`, ten consecutive ingest calls invoke the update rule
exactly 10 times total, all at the 10th call and none before. -/
theorem C3_learning_cadence (s : SchedState) (rows : Nat → List Transition)
    (hcnt : s.step_count % 10 = 0)
    (hsz : BATCH_SIZE < s.memory.memory.length)
    (hcap : s.memory.memory.length ≤ s.memory.buffer_size)
    (hbuf : BATCH_SIZE < s.memory.buffer_size) :
    (∀ (le ipl : Nat) (rs : List Transition) (u : SchedState),
      (DDPGAgent.step le ipl rs u).step_count = u.step_count + 1 ∧
      (DDPGAgent.step le ipl rs u).memory = u.memory.addAll rs ∧
      (DDPGAgent.step le ipl rs u).learn_calls = u.learn_calls +
        (if BATCH_SIZE < (u.memory.addAll rs).memory.length ∧
            (u.step_count + 1) % le = 0 then ipl else 0)) ∧
    (∀ k : Nat, k ≤ 10 →
      (DDPGAgent.stepIter 10 10 rows s k).learn_calls =
        s.learn_calls + (if k = 10 then 10 else 0)) := by
  constructor
  · intro le ipl rs u
    refine ⟨?_, ?_, ?_⟩ <;> simp only [DDPGAgent.step] <;> split <;> simp_all
  · have key : ∀ k : Nat, k ≤ 10 →
        (DDPGAgent.stepIter 10 10 rows s k).step_count = s.step_count + k ∧
        BATCH_SIZE < (DDPGAgent.stepIter 10 10 rows s k).memory.memory.length ∧
        (DDPGAgent.stepIter 10 10 rows s k).memory.memory.length ≤
          (DDPGAgent.stepIter 10 10 rows s k).memory.buffer_size ∧
        (DDPGAgent.stepIter 10 10 rows s k).memory.buffer_size = s.memory.buffer_size ∧
        (DDPGAgent.stepIter 10 10 rows s k).learn_calls =
          s.learn_calls + (if k = 10 then 10 else 0) := by
      intro k
      induction k with
      | zero => intro _; exact ⟨rfl, hsz, hcap, rfl, by simp [DDPGAgent.stepIter]⟩
      | succ k ih =>
        intro hk
        obtain ⟨hc, h1, h2, h3, h4⟩ := ih (Nat.le_of_succ_le hk)
        set u := DDPGAgent.stepIter 10 10 rows s k with hu
        have hgrow := addAll_preserves_bounds (rows k) u.memory h1 h2 (by rw [h3]; exact hbuf)
        have hiter : DDPGAgent.stepIter 10 10 rows s (k + 1) =
            DDPGAgent.step 10 10 (rows k) u := rfl
        by_cases hfin : k + 1 = 10
        · have hmod : (u.step_count + 1) % 10 = 0 := by rw [hc]; omega
          have hstep : DDPGAgent.step 10 10 (rows k) u =
              { step_count := u.step_count + 1, memory := u.memory.addAll (rows k),
                learn_calls := u.learn_calls + 10 } := by
            simp only [DDPGAgent.step]
            rw [if_pos ⟨hgrow.1, hmod⟩]
          rw [hiter, hstep]
          refine ⟨by show u.step_count + 1 = s.step_count + (k + 1); omega, hgrow.1,
            hgrow.2.1, hgrow.2.2.trans h3, ?_⟩
          have hk9 : k ≠ 10 := by omega
          rw [h4, if_neg hk9, if_pos hfin]
        · have hmod : (u.step_count + 1) % 10 ≠ 0 := by rw [hc]; omega
          have hstep : DDPGAgent.step 10 10 (rows k) u =
              { step_count := u.step_count + 1, memory := u.memory.addAll (rows k),
                learn_calls := u.learn_calls } := by
            simp only [DDPGAgent.step]
            rw [if_neg (fun hcond => hmod hcond.2)]
          rw [hiter, hstep]
          refine ⟨by show u.step_count + 1 = s.step_count + (k + 1); omega, hgrow.1,
            hgrow.2.1, hgrow.2.2.trans h3, ?_⟩
          have hk9 : k ≠ 10 := by omega
          rw [h4, if_neg hk9, if_neg hfin]
    exact fun k hk => (key k hk).2.2.2.2

/-- Witness for C3: a store of 515 transitions (above `BATCH_SIZE = 514`),
counter 0; after ten ingest calls the update rule has run exactly 10 times. -/
theorem C3_learning_cadence_witness :
    (0:Nat) % 10 = 0 ∧
    BATCH_SIZE < (List.replicate 515 (tagT 0)).length ∧
    (List.replicate 515 (tagT 0)).length ≤ 100000 ∧
    BATCH_SIZE < 100000 ∧
    (DDPGAgent.stepIter 10 10 (fun _ => [])
      (SchedState.mk 0 (ReplayBuffer.mk 1 100000 514 (List.replicate 515 (tagT 0))) 0)
      10).learn_calls = 0 + (if 10 = 10 then 10 else 0) := by
  refine ⟨by decide, ?_, ?_, by decide, ?_⟩
  · rw [List.length_replicate]; decide
  · rw [List.length_replicate]; norm_num
  · exact (C3_learning_cadence
      (SchedState.mk 0 (ReplayBuffer.mk 1 100000 514 (List.replicate 515 (tagT 0))) 0)
      (fun _ => []) (by decide)
      (by rw [show (SchedState.mk 0 (ReplayBuffer.mk 1 100000 514
        (List.replicate 515 (tagT 0))) 0).memory.memory = List.replicate 515 (tagT 0) from rfl,
        List.length_replicate]; decide)
      (by rw [show (SchedState.mk 0 (ReplayBuffer.mk 1 100000 514
        (List.replicate 515 (tagT 0))) 0).memory.memory = List.replicate 515 (tagT 0) from rfl,
        List.length_replicate]; norm_num)
      (by decide)).2 10 (by norm_num)
